import Mathlib

/-!
Shallow embedding of the extraction core of this repository
(`src/airflow/dags/utils/pdf_extractor.py`):

* `extract_document_type`  — keyword-count document classifier,
* `extract_premium_amount` — ordered regex amount extraction,
* `extract_submission_date`— ordered regex date extraction (the external
  `dateutil.parser.parse(_, fuzzy=True)` is modelled as an abstract
  parameter `dp : List Char → Option PyDateTime`; parse failures that the
  source catches are modelled as `none`),
* `extract_all_data`       — report assembly (the PDF/file-system I/O that
  produces the raw text is outside the pure core; the embedding starts
  from the extracted text, as the spec's §4.4 does),
* `validate_financial_year`— financial-year window validation.

Text is modelled as `List Char`.  Python regular expressions used by the
source only ever apply quantifiers to single character classes, so the
engine below implements exactly those constructs with Python's
leftmost, greedy, backtracking semantics (`re.findall` scan included).
Character classes are the ASCII readings of `\d`, `\s`, `\w` (the source
only feeds them lower-cased text and the keywords/labels are ASCII).
Python `float` results are modelled as exact rationals; every numeral the
claims mention (500, 12345.50) is exactly representable as a double, so
this does not change any claim's truth value.
-/

/-! ### Character classes (Python `re` classes, ASCII reading) -/

def digitB (c : Char) : Bool := decide ('0' ≤ c) && decide (c ≤ '9')

def wsB (c : Char) : Bool :=
  c == ' ' || c == '\t' || c == '\n' || c == '\r' || c == '\x0b' || c == '\x0c'

def colWsB (c : Char) : Bool := c == ':' || wsB c

def digitCommaB (c : Char) : Bool := digitB c || c == ','

def dashSlashB (c : Char) : Bool := c == '-' || c == '/'

def dotB (c : Char) : Bool := c == '.'

def wordB (c : Char) : Bool :=
  (decide ('a' ≤ c) && decide (c ≤ 'z')) || (decide ('A' ≤ c) && decide (c ≤ 'Z'))
    || digitB c || c == '_'

/-- Python `str.lower()` restricted to ASCII letters. -/
def lowerChar (c : Char) : Char :=
  if decide ('A' ≤ c) && decide (c ≤ 'Z') then Char.ofNat (c.toNat + 32) else c

/-! ### A small backtracking regex engine

Every quantifier appearing in the source's patterns binds a single
character class, so a class carries its own `{min,max}` repetition
(`max = none` meaning unbounded).  Matching is continuation-passing and
reproduces Python's backtracking order: alternatives left to right,
repetitions greedily from the largest feasible count downwards. -/

inductive RE where
  | eps : RE
  | lit : List Char → RE
  | cls : (Char → Bool) → Nat → Option Nat → RE
  | seq : RE → RE → RE
  | alt : RE → RE → RE

/-- Greedy optional group `(?: r )?`. -/
def reOpt (r : RE) : RE := RE.alt r RE.eps

/-- First `some` produced by `f` along a list, in order. -/
def firstSomeL {α β : Type} (f : β → Option α) : List β → Option α
  | [] => none
  | b :: bs =>
    match f b with
    | some a => some a
    | none => firstSomeL f bs

/-- Match a literal string at the head of the input, returning the rest. -/
def litMatch : List Char → List Char → Option (List Char)
  | [], s => some s
  | _ :: _, [] => none
  | c :: cs, d :: s => if c == d then litMatch cs s else none

/-- Length of the maximal run of characters satisfying `p` at the head. -/
def runLen (p : Char → Bool) : List Char → Nat
  | [] => 0
  | c :: t => if p c then runLen p t + 1 else 0

/-- `cdAux mn k = [mn + k - 1, mn + k - 2, ..., mn]`. -/
def cdAux (mn : Nat) : Nat → List Nat
  | 0 => []
  | k + 1 => (mn + k) :: cdAux mn k

/-- Counts `hi, hi - 1, ..., mn` to try for a greedy repetition. -/
def countdown (hi mn : Nat) : List Nat := cdAux mn (hi + 1 - mn)

/-- Largest feasible repetition count for a class at the head of `s`. -/
def clsHi (p : Char → Bool) (mx : Option Nat) (s : List Char) : Nat :=
  match mx with
  | none => runLen p s
  | some m => min (runLen p s) m

/-- The backtracking matcher: feed every suffix reachable by matching `r`
at the head of `s` to the continuation `k`, in Python's preference
order, returning the first success. -/
def mRE {α : Type} : RE → List Char → (List Char → Option α) → Option α
  | .eps, s, k => k s
  | .lit cs, s, k =>
    match litMatch cs s with
    | some s1 => k s1
    | none => none
  | .cls p mn mx, s, k =>
    firstSomeL (fun i => k (s.drop i)) (countdown (clsHi p mx s) mn)
  | .seq a b, s, k => mRE a s (fun s1 => mRE b s1 k)
  | .alt a b, s, k =>
    match mRE a s k with
    | some r => some r
    | none => mRE b s k

/-- A source pattern: an uncaptured part followed by the
capturing group (group 1).  Every pattern in the source ends with its
group, so this shape is exact. -/
structure Pat where
  pre : RE
  grp : RE

/-- Try to match a pattern at the head of `s`; on success return the text
captured by the group and the input remaining after the whole match. -/
def tryMatch (P : Pat) (s : List Char) : Option (List Char × List Char) :=
  mRE P.pre s (fun s1 => mRE P.grp s1 (fun s2 => some (s1.take (s1.length - s2.length), s2)))

/-- `re.findall` scan: try the pattern at each position left to right;
on a match record group 1 and resume after the match (after one further
character if the match were empty, as Python does). -/
def scanAux (P : Pat) : Nat → List Char → List (List Char)
  | 0, _ => []
  | fuel + 1, s =>
    match tryMatch P s with
    | some (g, rest) =>
      if rest.length < s.length then g :: scanAux P fuel rest
      else
        match s with
        | [] => [g]
        | _ :: t => g :: scanAux P fuel t
    | none =>
      match s with
      | [] => []
      | _ :: t => scanAux P fuel t

/-- All group-1 texts of a pattern over the input, in match order. -/
def scanAll (P : Pat) (s : List Char) : List (List Char) :=
  scanAux P (s.length + 1) s

/-! ### The source's pattern library -/

/-- Group `([0-9,]+\.?[0-9]*)` shared by all amount patterns. -/
def amtGrp : RE :=
  RE.seq (RE.cls digitCommaB 1 none) (RE.seq (RE.cls dotB 0 (some 1)) (RE.cls digitB 0 none))

/-- `rs\.?` -/
def rsOptDot : RE := RE.seq (RE.lit "rs".data) (RE.cls dotB 0 (some 1))

/-- `(?:rs\.?|₹)?` -/
def curOpt : RE := reOpt (RE.alt rsOptDot (RE.lit "₹".data))

/-- `LABEL[:\s]+(?:rs\.?|₹)?\s*` for a labelled amount pattern. -/
def amtLabelPre (lbl : List Char) : RE :=
  RE.seq (RE.lit lbl) (RE.seq (RE.cls colWsB 1 none) (RE.seq curOpt (RE.cls wsB 0 none)))

def patPremium : Pat := ⟨amtLabelPre "premium".data, amtGrp⟩

def patAmount : Pat := ⟨amtLabelPre "amount".data, amtGrp⟩

def patPaid : Pat := ⟨amtLabelPre "paid".data, amtGrp⟩

/-- `₹\s*([0-9,]+\.?[0-9]*)` -/
def patRupeeSym : Pat := ⟨RE.seq (RE.lit "₹".data) (RE.cls wsB 0 none), amtGrp⟩

/-- `rs\.?\s*([0-9,]+\.?[0-9]*)` -/
def patRs : Pat := ⟨RE.seq rsOptDot (RE.cls wsB 0 none), amtGrp⟩

/-- The source's `patterns` list, in source order. -/
def amount_patterns : List Pat := [patPremium, patAmount, patPaid, patRupeeSym, patRs]

/-- Group `(\d{1,2}[-∕]\d{1,2}[-∕]\d{2,4})` (dash-or-slash separators)
shared by date patterns 1-4. -/
def dateGrp : RE :=
  RE.seq (RE.cls digitB 1 (some 2))
    (RE.seq (RE.cls dashSlashB 1 (some 1))
      (RE.seq (RE.cls digitB 1 (some 2))
        (RE.seq (RE.cls dashSlashB 1 (some 1)) (RE.cls digitB 2 (some 4)))))

/-- `date[:\s]+` -/
def datePre : RE := RE.seq (RE.lit "date".data) (RE.cls colWsB 1 none)

def patDate : Pat := ⟨datePre, dateGrp⟩

def patDated : Pat := ⟨RE.seq (RE.lit "dated".data) (RE.cls colWsB 1 none), dateGrp⟩

/-- `receipt date[:\s]+(...)`: the literal `receipt date` is the
concatenation of the literal `receipt ` and the literal `date`. -/
def patReceiptDate : Pat := ⟨RE.seq (RE.lit "receipt ".data) datePre, dateGrp⟩

/-- The bare `(\d{1,2}[-∕]\d{1,2}[-∕]\d{2,4})` pattern with no label. -/
def patBareDate : Pat := ⟨RE.eps, dateGrp⟩

/-- `(jan|feb|mar|apr|may|jun|jul|aug|sep|oct|nov|dec)`, alternatives in
source order (group 2 of the source pattern; its capture is unused by the
source, which always takes group 1, so it is modelled captureless). -/
def monthAlt : RE :=
  RE.alt (RE.lit "jan".data) (RE.alt (RE.lit "feb".data) (RE.alt (RE.lit "mar".data)
    (RE.alt (RE.lit "apr".data) (RE.alt (RE.lit "may".data) (RE.alt (RE.lit "jun".data)
      (RE.alt (RE.lit "jul".data) (RE.alt (RE.lit "aug".data) (RE.alt (RE.lit "sep".data)
        (RE.alt (RE.lit "oct".data) (RE.alt (RE.lit "nov".data) (RE.lit "dec".data)))))))))))

/-- `(\d{1,2}\s+(jan|...|dec)\w*\s+\d{2,4})` -/
def textualGrp : RE :=
  RE.seq (RE.cls digitB 1 (some 2))
    (RE.seq (RE.cls wsB 1 none)
      (RE.seq monthAlt
        (RE.seq (RE.cls wordB 0 none)
          (RE.seq (RE.cls wsB 1 none) (RE.cls digitB 2 (some 4))))))

def patTextualDate : Pat := ⟨RE.eps, textualGrp⟩

/-- The source's `date_patterns` list, in source order. -/
def date_patterns : List Pat := [patDate, patDated, patReceiptDate, patBareDate, patTextualDate]

/-! ### DocumentClassifier: `extract_document_type` -/

/-- Boolean list-prefix test. -/
def prefB : List Char → List Char → Bool
  | [], _ => true
  | _ :: _, [] => false
  | c :: cs, d :: ds => c == d && prefB cs ds

/-- Boolean substring test (Python's `in` on strings). -/
def subB (p : List Char) : List Char → Bool
  | [] => prefB p []
  | s@(_ :: t) => prefB p s || subB p t

/-- `pat` occurs contiguously somewhere in `s`. -/
def OccursIn (pat s : List Char) : Prop := ∃ l r, s = l ++ pat ++ r

/-- The source's `lic_keywords` list, in source order. -/
def lic_keywords : List (List Char) :=
  [ "life insurance corporation".data
  , "lic of india".data
  , "premium receipt".data
  , "policy number".data
  , "premium paid".data
  , "receipt no".data ]

/-- `extract_document_type`: lower-case the text, count keywords occurring
as substrings, classify `LIC_RECEIPT` iff at least 3 match. -/
def extract_document_type (text : List Char) : List Char :=
  let text_lower := text.map lowerChar
  let matchCount := lic_keywords.countP (fun k => subB k text_lower)
  if 3 ≤ matchCount then "LIC_RECEIPT".data else "OTHER_DOCUMENT".data

/-! ### Python numeric parsing models -/

/-- Numeric value of a digit list (most significant first). -/
def digitsVal (l : List Char) : Nat :=
  l.foldl (fun a c => a * 10 + (c.toNat - 48)) 0

/-- Python `float` on the comma-stripped group texts of the amount
patterns (strings of shape `[0-9]*\.?[0-9]*`): at least one digit is
required (`float("")` and `float(".")` raise), value is exact. -/
def pyFloat (s : List Char) : Option ℚ :=
  match s.dropWhile digitB with
  | [] =>
    if (s.takeWhile digitB).isEmpty then none
    else some (digitsVal (s.takeWhile digitB) : ℚ)
  | '.' :: fp =>
    if fp.all digitB then
      if (s.takeWhile digitB).isEmpty && fp.isEmpty then none
      else some ((digitsVal (s.takeWhile digitB) : ℚ) + (digitsVal fp : ℚ) / (10 : ℚ) ^ fp.length)
    else none
  | _ => none

/-- Digits with Python's underscore rule: single underscores allowed
only between digits (`int("1_0") = 10`, `int("1__0")` raises). -/
def pduAux : Nat → List Char → Option Nat
  | acc, [] => some acc
  | acc, c :: cs =>
    if digitB c then pduAux (acc * 10 + (c.toNat - 48)) cs
    else if c == '_' then
      match cs with
      | d :: cs' => if digitB d then pduAux (acc * 10 + (d.toNat - 48)) cs' else none
      | [] => none
    else none

def parseDigitsU : List Char → Option Nat
  | [] => none
  | c :: cs => if digitB c then pduAux (c.toNat - 48) cs else none

/-- Whitespace stripped by Python `int` (ASCII reading). -/
def pyStrip (s : List Char) : List Char :=
  ((s.dropWhile wsB).reverse.dropWhile wsB).reverse

/-- Python `int(str)`: strip whitespace, optional sign, digits with
underscore rule. -/
def pyInt (s : List Char) : Option Int :=
  match pyStrip s with
  | '+' :: r => (parseDigitsU r).map Int.ofNat
  | '-' :: r => (parseDigitsU r).map (fun n => -(n : Int))
  | r => (parseDigitsU r).map Int.ofNat

/-! ### FieldExtractor: `extract_premium_amount` -/

/-- Python `matches[0].replace(',', '')`. -/
def stripCommas (s : List Char) : List Char := s.filter (fun c => !(c == ','))

/-- The source's loop: for each pattern, take all matches; if non-empty,
parse the first one; on parse failure fall through to the next pattern. -/
def epaGo (t : List Char) : List Pat → Option ℚ
  | [] => none
  | P :: Ps =>
    match scanAll P t with
    | [] => epaGo t Ps
    | m :: _ =>
      match pyFloat (stripCommas m) with
      | some v => some v
      | none => epaGo t Ps

def extract_premium_amount (text : List Char) : Option ℚ :=
  epaGo (text.map lowerChar) amount_patterns

/-! ### Python `datetime` model -/

/-- A Python `datetime.datetime` value (naive, no tzinfo). -/
structure PyDateTime where
  year : Nat
  month : Nat
  day : Nat
  hour : Nat
  minute : Nat
  second : Nat
  microsecond : Nat
deriving DecidableEq

/-- Python datetime comparison: lexicographic on all fields. -/
def dtLe (a b : PyDateTime) : Bool :=
  if a.year ≠ b.year then decide (a.year < b.year)
  else if a.month ≠ b.month then decide (a.month < b.month)
  else if a.day ≠ b.day then decide (a.day < b.day)
  else if a.hour ≠ b.hour then decide (a.hour < b.hour)
  else if a.minute ≠ b.minute then decide (a.minute < b.minute)
  else if a.second ≠ b.second then decide (a.second < b.second)
  else decide (a.microsecond ≤ b.microsecond)

def isLeap (y : Int) : Bool :=
  (y % 4 == 0 && !(y % 100 == 0)) || y % 400 == 0

def daysInMonth (y : Int) (m : Nat) : Nat :=
  match m with
  | 1 => 31 | 2 => if isLeap y then 29 else 28 | 3 => 31 | 4 => 30
  | 5 => 31 | 6 => 30 | 7 => 31 | 8 => 31
  | 9 => 30 | 10 => 31 | 11 => 30 | 12 => 31
  | _ => 0

/-- Decimal digit list of a natural number. -/
def natDigits (n : Nat) : List Char :=
  (Nat.toDigits 10 n)

/-- The `datetime(...)` constructor: returns the value or the message of
the `ValueError` it raises (`MINYEAR = 1`, `MAXYEAR = 9999`). -/
def mkDatetime (y : Int) (mo d h mi s us : Nat) : Except (List Char) PyDateTime :=
  if decide (y < 1) || decide (9999 < y) then
    .error ("year ".data ++ (if decide (y < 0) then '-' :: natDigits (-y).toNat else natDigits y.toNat) ++ " is out of range".data)
  else if decide (mo < 1) || decide (12 < mo) then .error "month must be in 1..12".data
  else if decide (d < 1) || decide (daysInMonth y mo < d) then .error "day is out of range for month".data
  else if decide (23 < h) then .error "hour must be in 0..23".data
  else if decide (59 < mi) then .error "minute must be in 0..59".data
  else if decide (59 < s) then .error "second must be in 0..59".data
  else if decide (999999 < us) then .error "microsecond must be in 0..999999".data
  else .ok ⟨y.toNat, mo, d, h, mi, s, us⟩

/-- A structurally valid Python datetime (what `datetime(...)` can build). -/
def PyDateTime.Valid (d : PyDateTime) : Prop :=
  1 ≤ d.year ∧ d.year ≤ 9999 ∧ 1 ≤ d.month ∧ d.month ≤ 12 ∧
    1 ≤ d.day ∧ d.day ≤ daysInMonth (d.year : Int) d.month ∧
    d.hour ≤ 23 ∧ d.minute ≤ 59 ∧ d.second ≤ 59 ∧ d.microsecond ≤ 999999

/-- Zero-padded decimal rendering. -/
def padNat (width n : Nat) : List Char :=
  let ds := natDigits n
  List.replicate (width - ds.length) '0' ++ ds

/-- `strftime('%Y-%m-%d')`. -/
def fmtYmd (d : PyDateTime) : List Char :=
  padNat 4 d.year ++ "-".data ++ padNat 2 d.month ++ "-".data ++ padNat 2 d.day

/-- `datetime.isoformat()`: `YYYY-MM-DDTHH:MM:SS`, with `.ffffff`
appended only when the microsecond field is non-zero. -/
def isoformat (d : PyDateTime) : List Char :=
  fmtYmd d ++ "T".data ++ padNat 2 d.hour ++ ":".data ++ padNat 2 d.minute
    ++ ":".data ++ padNat 2 d.second
    ++ (if d.microsecond ≠ 0 then '.' :: padNat 6 d.microsecond else [])

/-! ### FieldExtractor: `extract_submission_date`

`dateutil.parser.parse(candidate, fuzzy=True)` is external to the
repository; it is modelled as an abstract parameter
`dp : List Char → Option PyDateTime` where `none` stands for the
`ValueError`/`TypeError` the source catches and skips. -/

/-- The source's inner loop: first candidate whose parse succeeds. -/
def firstParse (dp : List Char → Option PyDateTime) : List (List Char) → Option PyDateTime
  | [] => none
  | c :: cs =>
    match dp c with
    | some d => some d
    | none => firstParse dp cs

/-- The source's outer loop over `date_patterns`. -/
def esdGo (dp : List Char → Option PyDateTime) (t : List Char) : List Pat → Option PyDateTime
  | [] => none
  | P :: Ps =>
    match firstParse dp (scanAll P t) with
    | some d => some d
    | none => esdGo dp t Ps

def extract_submission_date (dp : List Char → Option PyDateTime) (text : List Char) :
    Option PyDateTime :=
  esdGo dp (text.map lowerChar) date_patterns

/-- All candidate group texts of a pattern list over `t`, concatenated in
pattern order. -/
def patCands (t : List Char) : List Pat → List (List Char)
  | [] => []
  | P :: Ps => scanAll P t ++ patCands t Ps

/-- Candidates of the three labelled date patterns. -/
def labelledCands (t : List Char) : List (List Char) :=
  scanAll patDate t ++ scanAll patDated t ++ scanAll patReceiptDate t

/-- Candidates of the bare numeric date pattern. -/
def bareCands (t : List Char) : List (List Char) := scanAll patBareDate t

/-- Candidates of the textual month-name date pattern. -/
def textualCands (t : List Char) : List (List Char) := scanAll patTextualDate t

/-- The date pattern list with the `receipt date` pattern removed
(for the redundancy claim). -/
def date_patterns_without_receipt : List Pat := [patDate, patDated, patBareDate, patTextualDate]

def extract_submission_date_without_receipt (dp : List Char → Option PyDateTime)
    (text : List Char) : Option PyDateTime :=
  esdGo dp (text.map lowerChar) date_patterns_without_receipt

/-! ### ExtractionReport assembly: `extract_all_data`

The source first reads the PDF (I/O, may raise `FileNotFoundError` or a
reading fault — the spec's MissingInput); the pure assembly below starts
from the extracted text, exactly as the source's remaining lines do. -/

structure ExtractionReport where
  document_type : List Char
  premium_amount : Option ℚ
  submission_date : Option (List Char)
  raw_text : List Char

def extract_all_data (dp : List Char → Option PyDateTime) (text : List Char) :
    ExtractionReport :=
  { document_type := extract_document_type text
  , premium_amount := extract_premium_amount text
  , submission_date := (extract_submission_date dp text).map isoformat
  , raw_text := if 500 < text.length then text.take 500 ++ "...".data else text }

/-! ### PeriodValidator: `validate_financial_year` -/

/-- Python `financial_year.split('-')` (keeps empty pieces). -/
def splitDashAux (cur : List Char) : List Char → List (List Char)
  | [] => [cur.reverse]
  | c :: t => if c == '-' then cur.reverse :: splitDashAux [] t else splitDashAux (c :: cur) t

def splitDash (s : List Char) : List (List Char) := splitDashAux [] s

/-- Message of a successful validation. -/
def validMsg (d : PyDateTime) (fy : List Char) : List Char :=
  "Premium submission date ".data ++ fmtYmd d ++ " is valid for FY ".data ++ fy

/-- Message of an in-range-check failure. -/
def invalidMsg (d : PyDateTime) (fy : List Char) : List Char :=
  "Premium submission date ".data ++ fmtYmd d ++ " not in FY ".data ++ fy

/-- The `try` body of `validate_financial_year`, with every Python
exception (IndexError, ValueError from `int`, ValueError from
`datetime`) surfaced as `Except.error` carrying its message. -/
def vfyBody (d : PyDateTime) (label : List Char) : Except (List Char) (Bool × List Char) :=
  match splitDash label with
  | p0 :: p1 :: _ =>
    match pyInt p0 with
    | none => .error ("invalid literal for int() with base 10: ".data ++ p0)
    | some start_year =>
      match pyInt p1 with
      | none => .error ("invalid literal for int() with base 10: ".data ++ p1)
      | some _end_year =>
        match mkDatetime start_year 4 1 0 0 0 0 with
        | .error e => .error e
        | .ok fy_start =>
          match mkDatetime (start_year + 1) 3 31 23 59 59 0 with
          | .error e => .error e
          | .ok fy_end =>
            if dtLe fy_start d && dtLe d fy_end then .ok (true, validMsg d label)
            else .ok (false, invalidMsg d label)
  | _ => .error "list index out of range".data

/-- `validate_financial_year`: the `except` clause turns any exception
into `(False, "Error validating financial year: ...")`. -/
def validate_financial_year (d : PyDateTime) (label : List Char) : Bool × List Char :=
  match vfyBody d label with
  | .ok r => r
  | .error e => (false, "Error validating financial year: ".data ++ e)

/-- The malformed-label condition that actually drives the source into
its error branch at label-parsing time: the dash-split has no second
component, or one of the first two components is not an integer literal. -/
def MalformedFY (label : List Char) : Prop :=
  match splitDash label with
  | p0 :: p1 :: _ => pyInt p0 = none ∨ pyInt p1 = none
  | _ => True

/-! ### Concrete material for counterexamples and witnesses -/

/-- A fuzzy parser that refuses everything (for witnesses that do not
depend on dates). -/
def dpNone : List Char → Option PyDateTime := fun _ => none

/-- 2020-04-03, the day-first reading of `3-4-2020`. -/
def dApr3 : PyDateTime := ⟨2020, 4, 3, 0, 0, 0, 0⟩

/-- 2021-01-15, the reading of `15 jan 2021`. -/
def dJan15 : PyDateTime := ⟨2021, 1, 15, 0, 0, 0, 0⟩

/-- A concrete fuzzy parser for the date-order counterexample: it parses
exactly the two candidate strings occurring in the text. -/
def dpTwo (c : List Char) : Option PyDateTime :=
  if c = "3-4-2020".data then some dApr3
  else if c = "15 jan 2021".data then some dJan15
  else none

/-- The date-order counterexample text. -/
def ce4text : List Char := "3-4-2020 15 jan 2021".data

/-- Characters a regex can consume all satisfy `Q` (used to analyse what
a match region may contain). -/
def REChars (Q : Char → Prop) : RE → Prop
  | .eps => True
  | .lit cs => ∀ c ∈ cs, Q c
  | .cls p _ _ => ∀ c, p c = true → Q c
  | .seq a b => REChars Q a ∧ REChars Q b
  | .alt a b => REChars Q a ∧ REChars Q b

/-- `x` is a contiguous final segment of `s`. -/
def SufOf (x s : List Char) : Prop := ∃ a, a ++ x = s

/-! ## Helper lemmas -/

theorem firstSomeL_eq_some {α β : Type} {f : β → Option α} :
    ∀ {l : List β} {a : α}, firstSomeL f l = some a → ∃ b ∈ l, f b = some a := by
  intro l
  induction l with
  | nil => intro a h; simp [firstSomeL] at h
  | cons b bs ih =>
    intro a h
    simp only [firstSomeL] at h
    cases hb : f b with
    | some a0 => rw [hb] at h; exact ⟨b, List.mem_cons_self b bs, hb.trans h⟩
    | none => rw [hb] at h; obtain ⟨b', hm, hf⟩ := ih h; exact ⟨b', List.mem_cons_of_mem b hm, hf⟩

theorem firstParse_append (dp : List Char → Option PyDateTime) (xs ys : List (List Char)) :
    firstParse dp (xs ++ ys) =
      (match firstParse dp xs with
       | some d => some d
       | none => firstParse dp ys) := by
  induction xs with
  | nil => rfl
  | cons c cs ih =>
    simp only [List.cons_append, firstParse]
    cases dp c <;> simp [ih]

theorem firstParse_eq_none_iff (dp : List Char → Option PyDateTime) :
    ∀ (xs : List (List Char)), firstParse dp xs = none ↔ ∀ c ∈ xs, dp c = none := by
  intro xs
  induction xs with
  | nil => simp [firstParse]
  | cons c cs ih =>
    simp only [firstParse]
    cases h : dp c with
    | some d => simp [h]
    | none => simp [h, ih]

theorem epaGo_eq (t : List Char) :
    ∀ L, epaGo t L =
      firstSomeL (fun P => ((scanAll P t).head?).bind (fun g => pyFloat (stripCommas g))) L := by
  intro L
  induction L with
  | nil => rfl
  | cons P Ps ih =>
    simp only [epaGo, firstSomeL]
    cases h : scanAll P t with
    | nil => simp [h, ih]
    | cons m ms =>
      cases hv : pyFloat (stripCommas m) <;> simp [h, hv, ih]

theorem esdGo_eq (dp : List Char → Option PyDateTime) (t : List Char) :
    ∀ L, esdGo dp t L = firstParse dp (patCands t L) := by
  intro L
  induction L with
  | nil => rfl
  | cons P Ps ih =>
    simp only [esdGo, patCands, firstParse_append]
    cases h : firstParse dp (scanAll P t) <;> simp [h, ih]

theorem prefB_iff : ∀ (p s : List Char), prefB p s = true ↔ ∃ r, s = p ++ r := by
  intro p
  induction p with
  | nil =>
    intro s
    constructor
    · intro _; exact ⟨s, rfl⟩
    · intro _; rfl
  | cons c cs ih =>
    intro s
    cases s with
    | nil =>
      constructor
      · intro h; simp [prefB] at h
      · rintro ⟨r, hr⟩; simp at hr
    | cons d ds =>
      constructor
      · intro h
        simp only [prefB, Bool.and_eq_true, beq_iff_eq] at h
        obtain ⟨hc, hp⟩ := h
        obtain ⟨r, hr⟩ := (ih ds).mp hp
        subst hc
        exact ⟨r, by rw [hr]; rfl⟩
      · rintro ⟨r, hr⟩
        rw [List.cons_append] at hr
        obtain ⟨hc, hds⟩ := List.cons.inj hr
        subst hc
        simp only [prefB, beq_self_eq_true, Bool.true_and]
        exact (ih ds).mpr ⟨r, hds⟩

theorem subB_iff : ∀ (p s : List Char), subB p s = true ↔ OccursIn p s := by
  intro p s
  induction s with
  | nil =>
    simp only [subB, OccursIn]
    rw [prefB_iff]
    constructor
    · rintro ⟨r, hr⟩; exact ⟨[], r, by simpa using hr⟩
    · rintro ⟨l, r, hr⟩
      have h2 := List.append_eq_nil.mp hr.symm
      have h3 := List.append_eq_nil.mp h2.1
      exact ⟨r, by rw [h3.2, h2.2]; rfl⟩
  | cons d ds ih =>
    simp only [subB, Bool.or_eq_true]
    constructor
    · rintro (h | h)
      · obtain ⟨r, hr⟩ := (prefB_iff p (d :: ds)).mp h
        exact ⟨[], r, by simpa using hr⟩
      · obtain ⟨l, r, hr⟩ := ih.mp h
        refine ⟨d :: l, r, ?_⟩
        simp only [List.cons_append]
        rw [← hr]
    · rintro ⟨l, r, hr⟩
      cases l with
      | nil =>
        left
        refine (prefB_iff p (d :: ds)).mpr ⟨r, ?_⟩
        simpa using hr
      | cons x xs =>
        right
        simp only [List.cons_append] at hr
        obtain ⟨_, hds⟩ := List.cons.inj hr
        exact ih.mpr ⟨xs, r, hds⟩

theorem pyFloat_nonneg {s : List Char} {v : ℚ} (h : pyFloat s = some v) : 0 ≤ v := by
  unfold pyFloat at h
  split at h
  · split at h
    · exact absurd h (by simp)
    · obtain rfl := Option.some.inj h
      positivity
  · split at h
    · split at h
      · exact absurd h (by simp)
      · obtain rfl := Option.some.inj h
        positivity
    · exact absurd h (by simp)
  · exact absurd h (by simp)

theorem pyFloat_eval_int {s ip : List Char} (h1 : s.dropWhile digitB = [])
    (h2 : s.takeWhile digitB = ip) (h3 : ip.isEmpty = false) :
    pyFloat s = some (digitsVal ip : ℚ) := by
  unfold pyFloat
  rw [h1, h2, h3]
  rfl

theorem pyFloat_eval_frac {s ip fp : List Char} (h1 : s.dropWhile digitB = '.' :: fp)
    (h2 : s.takeWhile digitB = ip) (h3 : fp.all digitB = true) (h4 : ip.isEmpty = false) :
    pyFloat s = some ((digitsVal ip : ℚ) + (digitsVal fp : ℚ) / (10 : ℚ) ^ fp.length) := by
  unfold pyFloat
  rw [h1]
  simp only [h2, h3, h4, if_true, Bool.false_and, Bool.false_eq_true, if_false]

theorem epaGo_some {t : List Char} :
    ∀ {L : List Pat} {v : ℚ}, epaGo t L = some v → ∃ s, pyFloat s = some v := by
  intro L
  induction L with
  | nil => intro v h; simp [epaGo] at h
  | cons P Ps ih =>
    intro v h
    simp only [epaGo] at h
    cases hs : scanAll P t with
    | nil => rw [hs] at h; exact ih h
    | cons m ms =>
      rw [hs] at h
      cases hv : pyFloat (stripCommas m) with
      | some w =>
        simp only [hv] at h
        exact ⟨stripCommas m, hv.trans h⟩
      | none =>
        simp only [hv] at h
        exact ih h

/-! ## Claim theorems -/

/-- C2: `extract_document_type` returns `LIC_RECEIPT` iff at least 3
distinct keyword phrases of the fixed list occur (case-insensitively, via
the lower-cased text) as substrings, each keyword counted at most once
however often it repeats; otherwise (and always as the only alternative)
it returns `OTHER_DOCUMENT`, and it never fails. -/
theorem C2_document_classifier (text : List Char) :
    (extract_document_type text = "LIC_RECEIPT".data ↔
      3 ≤ lic_keywords.countP (fun k => subB k (text.map lowerChar))) ∧
    (∀ k s, subB k s = true ↔ OccursIn k s) ∧
    (extract_document_type text = "LIC_RECEIPT".data ∨
      extract_document_type text = "OTHER_DOCUMENT".data) := by
  refine ⟨?_, fun k s => subB_iff k s, ?_⟩
  · unfold extract_document_type
    by_cases h : 3 ≤ lic_keywords.countP (fun k => subB k (text.map lowerChar))
    · simp [h]
    · rw [if_neg h]
      constructor
      · intro hc
        exact absurd hc (by decide)
      · intro hc
        exact absurd hc h
  · unfold extract_document_type
    by_cases h : 3 ≤ lic_keywords.countP (fun k => subB k (text.map lowerChar)) <;>
      simp [h]

/-- C3: `extract_premium_amount` tries the five amount patterns in the
fixed source order (premium, amount, paid, ₹-symbol, rs-symbol); the
first pattern with any match wins and within it the first occurrence
wins; the matched token is comma-stripped and parsed as a decimal, a
failed parse falling through to the next pattern; absent if nothing
matches or parses.  Concrete: `"Amount: Rs 500, other figure 999"` gives
500, `"Premium: Rs. 12,345.50"` gives 12345.50, `"no numbers here"`
gives nothing. -/
theorem C3_amount_extraction :
    (∀ text, extract_premium_amount text =
      firstSomeL
        (fun P => ((scanAll P (text.map lowerChar)).head?).bind
          (fun g => pyFloat (stripCommas g)))
        amount_patterns) ∧
    extract_premium_amount "Amount: Rs 500, other figure 999".data = some 500 ∧
    extract_premium_amount "Premium: Rs. 12,345.50".data = some (12345.50 : ℚ) ∧
    extract_premium_amount "no numbers here".data = none := by
  refine ⟨fun text => epaGo_eq (text.map lowerChar) amount_patterns, ?_, ?_, ?_⟩
  · have h0 : ("Amount: Rs 500, other figure 999".data).map lowerChar =
        "amount: rs 500, other figure 999".data := by decide
    unfold extract_premium_amount
    rw [h0]
    simp only [amount_patterns, epaGo]
    have hp1 : scanAll patPremium "amount: rs 500, other figure 999".data = [] := by decide
    have hp2 : scanAll patAmount "amount: rs 500, other figure 999".data = ["500,".data] := by
      decide
    have hs : stripCommas "500,".data = "500".data := by decide
    have hv : pyFloat "500".data = some (digitsVal "500".data : ℚ) :=
      pyFloat_eval_int (by decide) rfl (by decide)
    have hd : digitsVal "500".data = 500 := by decide
    rw [hd] at hv
    simp only [hp1, hp2, hs, hv]
    norm_num
  · have h0 : ("Premium: Rs. 12,345.50".data).map lowerChar =
        "premium: rs. 12,345.50".data := by decide
    unfold extract_premium_amount
    rw [h0]
    simp only [amount_patterns, epaGo]
    have hp1 : scanAll patPremium "premium: rs. 12,345.50".data = ["12,345.50".data] := by
      decide
    have hs : stripCommas "12,345.50".data = "12345.50".data := by decide
    have hv : pyFloat "12345.50".data =
        some ((digitsVal "12345".data : ℚ) + (digitsVal "50".data : ℚ) / (10 : ℚ) ^ ("50".data).length) :=
      pyFloat_eval_frac (by decide) (by decide) (by decide) (by decide)
    have hd1 : digitsVal "12345".data = 12345 := by decide
    have hd2 : digitsVal "50".data = 50 := by decide
    have hd3 : ("50".data).length = 2 := by decide
    rw [hd1, hd2, hd3] at hv
    simp only [hp1, hs, hv]
    norm_num
  · decide

/-- C9: an extracted premium amount is never negative — the capture
group admits only digits, commas and a dot, so every parsed value is a
non-negative rational. -/
theorem C9_amount_nonneg (text : List Char) (v : ℚ)
    (h : extract_premium_amount text = some v) : 0 ≤ v := by
  obtain ⟨s, hs⟩ := epaGo_some h
  exact pyFloat_nonneg hs

/-- C9 witness: instantiated at `"premium: 500"`, which extracts 500. -/
theorem C9_amount_nonneg_witness : (0 : ℚ) ≤ 500 :=
  C9_amount_nonneg "premium: 500".data 500 (by decide)

/-- C7: the diagnostic `raw_text` field equals the whole text when it
has at most 500 characters, and the first 500 characters with an
ellipsis marker appended when longer. -/
theorem C7_raw_text_excerpt (dp : List Char → Option PyDateTime) (text : List Char) :
    (text.length ≤ 500 → (extract_all_data dp text).raw_text = text) ∧
    (500 < text.length →
      (extract_all_data dp text).raw_text = text.take 500 ++ "...".data) := by
  constructor
  · intro h
    simp [extract_all_data, Nat.not_lt.mpr h]
  · intro h
    simp [extract_all_data, h]

/-- C7 witness: a short text passes through unchanged; a 501-character
text is truncated to 500 characters plus the ellipsis marker. -/
theorem C7_raw_text_excerpt_witness :
    (extract_all_data dpNone "hi".data).raw_text = "hi".data ∧
    (extract_all_data dpNone (List.replicate 501 'a')).raw_text =
      List.replicate 500 'a' ++ "...".data := by
  constructor
  · exact (C7_raw_text_excerpt dpNone "hi".data).1 (by decide)
  · have hlen : 500 < (List.replicate 501 'a').length := by
      rw [List.length_replicate]
      omega
    have h := (C7_raw_text_excerpt dpNone (List.replicate 501 'a')).2 hlen
    rw [h, List.take_replicate]
    have hmin : min 500 501 = 500 := by omega
    rw [hmin]

/-- C8: the report's amount and date fields are computed independently
(each is a function of the text alone through its own extractor, so
absence of one cannot block the other), and the document type is always
present as one of the two classifier values. -/
theorem C8_report_fields (dp : List Char → Option PyDateTime) (text : List Char) :
    (extract_all_data dp text).premium_amount = extract_premium_amount text ∧
    (extract_all_data dp text).submission_date =
      (extract_submission_date dp text).map isoformat ∧
    ((extract_all_data dp text).document_type = "LIC_RECEIPT".data ∨
      (extract_all_data dp text).document_type = "OTHER_DOCUMENT".data) := by
  refine ⟨rfl, rfl, ?_⟩
  show extract_document_type text = _ ∨ extract_document_type text = _
  unfold extract_document_type
  by_cases h : 3 ≤ lic_keywords.countP (fun k => subB k (text.map lowerChar)) <;> simp [h]

/-- C5: date extraction returns the first candidate, across the full
ordered pattern list with occurrences in order inside each pattern,
whose (abstract fuzzy) parse succeeds; later candidates are not
consulted, unparseable candidates are silently skipped, and the result
is absent when no candidate parses — for every parser `dp`. -/
theorem C5_date_first_success (dp : List Char → Option PyDateTime) (text : List Char) :
    extract_submission_date dp text =
      firstParse dp (patCands (text.map lowerChar) date_patterns) :=
  esdGo_eq dp (text.map lowerChar) date_patterns

/-- C4 (amended): the date patterns are tried labelled first, then the
bare numeric pattern, then the textual month-name pattern last — the
bare numeric candidates are consulted before the textual ones, not
after. -/
theorem C4_date_pattern_order (dp : List Char → Option PyDateTime) (text : List Char) :
    extract_submission_date dp text =
      firstParse dp
        (labelledCands (text.map lowerChar) ++ bareCands (text.map lowerChar)
          ++ textualCands (text.map lowerChar)) := by
  unfold extract_submission_date
  rw [esdGo_eq dp (text.map lowerChar) date_patterns]
  simp [patCands, labelledCands, bareCands, textualCands, date_patterns, List.append_assoc]

/-- C4 counterexample: on `"3-4-2020 15 jan 2021"` with a parser that
accepts both candidate strings, the source returns the bare numeric
match `3-4-2020` even though the textual month-name candidate
`15 jan 2021` parses — so the bare numeric pattern is *not* tried last
and is used despite a textual candidate parsing, refuting the claimed
order. -/
theorem C4_date_pattern_order_counterexample :
    extract_submission_date dpTwo ce4text = some dApr3 ∧
    firstParse dpTwo
      (labelledCands (ce4text.map lowerChar) ++ textualCands (ce4text.map lowerChar)
        ++ bareCands (ce4text.map lowerChar)) = some dJan15 ∧
    dApr3 ≠ dJan15 := by
  refine ⟨by decide, by decide, by decide⟩

theorem mkDatetime_apr1 (Y : Int) (h1 : 1 ≤ Y) (h2 : Y ≤ 9999) :
    mkDatetime Y 4 1 0 0 0 0 = .ok ⟨Y.toNat, 4, 1, 0, 0, 0, 0⟩ := by
  unfold mkDatetime
  have c1 : ¬((decide (Y < 1) || decide (9999 < Y)) = true) := by
    simp only [Bool.or_eq_true, decide_eq_true_eq, not_or]
    omega
  rw [if_neg c1]
  rfl

theorem mkDatetime_mar31 (Y : Int) (h1 : 1 ≤ Y) (h2 : Y ≤ 9999) :
    mkDatetime Y 3 31 23 59 59 0 = .ok ⟨Y.toNat, 3, 31, 23, 59, 59, 0⟩ := by
  unfold mkDatetime
  have c1 : ¬((decide (Y < 1) || decide (9999 < Y)) = true) := by
    simp only [Bool.or_eq_true, decide_eq_true_eq, not_or]
    omega
  rw [if_neg c1]
  rfl

/-- C1 (amended): for every date and every label splitting into exactly
two integer components with leading component `Y`, *provided
`1 ≤ Y ≤ 9998` so that both period endpoints are constructible
datetimes*, validity is `true` iff `Y-04-01T00:00:00 ≤ d ≤
(Y+1)-03-31T23:59:59`, both endpoints inclusive; the period end year is
`Y + 1` regardless of the trailing component's value `E`. -/
theorem C1_period_window (d : PyDateTime) (label p0 p1 : List Char) (Y E : Int)
    (hsplit : splitDash label = [p0, p1])
    (h0 : pyInt p0 = some Y) (h1 : pyInt p1 = some E)
    (hlo : 1 ≤ Y) (hhi : Y ≤ 9998) :
    ((validate_financial_year d label).1 = true ↔
      (dtLe ⟨Y.toNat, 4, 1, 0, 0, 0, 0⟩ d = true ∧
        dtLe d ⟨Y.toNat + 1, 3, 31, 23, 59, 59, 0⟩ = true)) := by
  have ht : (Y + 1).toNat = Y.toNat + 1 := by omega
  unfold validate_financial_year vfyBody
  simp only [hsplit, h0, h1, mkDatetime_apr1 Y hlo (by omega),
    mkDatetime_mar31 (Y + 1) (by omega) (by omega), ht]
  by_cases hb : (dtLe ⟨Y.toNat, 4, 1, 0, 0, 0, 0⟩ d
      && dtLe d ⟨Y.toNat + 1, 3, 31, 23, 59, 59, 0⟩) = true
  · rw [if_pos hb]
    simp only [Bool.and_eq_true] at hb
    simp [hb.1, hb.2]
  · rw [if_neg hb]
    simp only [Bool.and_eq_true] at hb
    constructor
    · intro hc
      exact absurd hc (by simp)
    · intro hc
      exact absurd hc hb

/-- C1 witness: August 15, 2023 against `2023-24` is valid. -/
theorem C1_period_window_witness :
    (validate_financial_year ⟨2023, 8, 15, 0, 0, 0, 0⟩ "2023-24".data).1 = true :=
  (C1_period_window ⟨2023, 8, 15, 0, 0, 0, 0⟩ "2023-24".data "2023".data "24".data 2023 24
    (by decide) (by decide) (by decide) (by decide) (by decide)).mpr ⟨by decide, by decide⟩

/-- C1 counterexample: for the label `9999-00` (two integer components,
leading component 9999) and the date 9999-06-01, the claimed interval
`9999-04-01T00:00:00 ≤ d ≤ 10000-03-31T23:59:59` contains the date, yet
the source reports validity `false`, because `datetime(10000, 3, 31,
23, 59, 59)` raises (year out of range) and the `except` path returns
the error pair — refuting the claimed equivalence as stated. -/
theorem C1_period_window_counterexample :
    splitDash "9999-00".data = ["9999".data, "00".data] ∧
    pyInt "9999".data = some 9999 ∧
    pyInt "00".data = some 0 ∧
    dtLe ⟨9999, 4, 1, 0, 0, 0, 0⟩ ⟨9999, 6, 1, 0, 0, 0, 0⟩ = true ∧
    dtLe ⟨9999, 6, 1, 0, 0, 0, 0⟩ ⟨10000, 3, 31, 23, 59, 59, 0⟩ = true ∧
    (validate_financial_year ⟨9999, 6, 1, 0, 0, 0, 0⟩ "9999-00".data).1 = false := by
  decide

/-- C6 (amended): for every date and every label whose dash-split has no
second component, or whose first two components do not both parse as
integers, the validator returns the pair `(false, message)` with the
descriptive error message, and never raises — the model is a total
function into `Bool × message`.  (Components *after* the first two are
ignored by the source, see the counterexample.) -/
theorem C6_malformed_label (d : PyDateTime) (label : List Char) (h : MalformedFY label) :
    (validate_financial_year d label).1 = false ∧
    ∃ tail, (validate_financial_year d label).2 =
      "Error validating financial year: ".data ++ tail := by
  unfold validate_financial_year vfyBody
  cases hsp : splitDash label with
  | nil =>
    exact ⟨rfl, "list index out of range".data, rfl⟩
  | cons p0 rest =>
    cases rest with
    | nil =>
      exact ⟨rfl, "list index out of range".data, rfl⟩
    | cons p1 rest2 =>
      have h2 : pyInt p0 = none ∨ pyInt p1 = none := by
        unfold MalformedFY at h
        rw [hsp] at h
        exact h
      cases hz : pyInt p0 with
      | none =>
        simp only [hz]
        exact ⟨trivial, "invalid literal for int() with base 10: ".data ++ p0, rfl⟩
      | some sy =>
        have h3 : pyInt p1 = none := by
          rcases h2 with h2 | h2
          · rw [hz] at h2
            exact Option.noConfusion h2
          · exact h2
        simp only [hz, h3]
        exact ⟨trivial, "invalid literal for int() with base 10: ".data ++ p1, rfl⟩

/-- C6 witness: the malformed label `2023-2X` yields the error pair. -/
theorem C6_malformed_label_witness :
    (validate_financial_year ⟨2023, 6, 1, 0, 0, 0, 0⟩ "2023-2X".data).1 = false ∧
    ∃ tail, (validate_financial_year ⟨2023, 6, 1, 0, 0, 0, 0⟩ "2023-2X".data).2 =
      "Error validating financial year: ".data ++ tail :=
  C6_malformed_label ⟨2023, 6, 1, 0, 0, 0, 0⟩ "2023-2X".data
    (by
      show pyInt "2023".data = none ∨ pyInt "2X".data = none
      exact Or.inr (by decide))

/-- C6 counterexample: the label `2023-24-25` cannot be split into two
integer components (its dash-split has three parts), yet the source does
*not* return the claimed `(false, error message)` pair — it silently
ignores the third component and reports the date as valid. -/
theorem C6_malformed_label_counterexample :
    (splitDash "2023-24-25".data).length = 3 ∧
    (validate_financial_year ⟨2023, 6, 1, 0, 0, 0, 0⟩ "2023-24-25".data).1 = true := by
  decide

/-! ## Redundancy of the `receipt date` pattern (C10)

The key facts: a `receipt date[:\s]+(...)` match at a position is exactly a
`date[:\s]+(...)` match 8 characters further right; and everything a
`date[:\s]+(...)` match consumes after its leading `d` (the letters
`ate`, colons/whitespace, digits, dashes, slashes) is never the letter
`d`, so the non-overlapping scan for the `date` pattern can never skip
over the `date` inside an occurrence of `receipt date`. -/

theorem litMatch_some : ∀ {cs s s1 : List Char}, litMatch cs s = some s1 → s = cs ++ s1 := by
  intro cs
  induction cs with
  | nil =>
    intro s s1 h
    simp only [litMatch] at h
    rw [Option.some.inj h]
    rfl
  | cons c cs ih =>
    intro s s1 h
    cases s with
    | nil => simp [litMatch] at h
    | cons d ds =>
      simp only [litMatch] at h
      by_cases hc : (c == d) = true
      · rw [if_pos hc] at h
        have hcd : c = d := beq_iff_eq.mp hc
        rw [List.cons_append, ← ih h, hcd]
      · rw [if_neg hc] at h
        exact absurd h (by simp)

theorem runLen_le_length (p : Char → Bool) : ∀ s : List Char, runLen p s ≤ s.length := by
  intro s
  induction s with
  | nil => simp [runLen]
  | cons c t ih =>
    simp only [runLen, List.length_cons]
    by_cases h : p c = true
    · rw [if_pos h]; omega
    · rw [if_neg h]; omega

theorem take_all_of_le_runLen {p : Char → Bool} :
    ∀ {s : List Char} {i : Nat}, i ≤ runLen p s → ∀ c ∈ s.take i, p c = true := by
  intro s
  induction s with
  | nil => intro i _ c hc; simp at hc
  | cons c0 t ih =>
    intro i hi c hc
    cases i with
    | zero => simp at hc
    | succ j =>
      simp only [runLen] at hi
      by_cases hp : p c0 = true
      · rw [if_pos hp] at hi
        rw [List.take_succ_cons] at hc
        rcases List.mem_cons.mp hc with rfl | hc
        · exact hp
        · exact ih (by omega) c hc
      · rw [if_neg hp] at hi
        omega

theorem mem_cdAux {mn : Nat} : ∀ {k i : Nat}, i ∈ cdAux mn k → mn ≤ i ∧ i < mn + k := by
  intro k
  induction k with
  | zero => intro i h; simp [cdAux] at h
  | succ j ih =>
    intro i h
    simp only [cdAux] at h
    rcases List.mem_cons.mp h with rfl | h
    · omega
    · have := ih h
      omega

theorem mem_countdown {hi mn i : Nat} (h : i ∈ countdown hi mn) : mn ≤ i ∧ i ≤ hi := by
  have := mem_cdAux h
  omega

theorem clsHi_le_runLen (p : Char → Bool) (mx : Option Nat) (s : List Char) :
    clsHi p mx s ≤ runLen p s := by
  cases mx with
  | none => exact le_refl _
  | some m => exact min_le_left _ _

theorem REChars_true : ∀ r : RE, REChars (fun _ => True) r := by
  intro r
  induction r with
  | eps => trivial
  | lit cs => intro c _; trivial
  | cls p mn mx => intro c _; trivial
  | seq a b iha ihb => exact ⟨iha, ihb⟩
  | alt a b iha ihb => exact ⟨iha, ihb⟩

theorem mRE_some_decomp {α : Type} {Q : Char → Prop} :
    ∀ (r : RE), REChars Q r → ∀ (s : List Char) (k : List Char → Option α) (x : α),
      mRE r s k = some x →
      ∃ n, n ≤ s.length ∧ (∀ c ∈ s.take n, Q c) ∧ k (s.drop n) = some x := by
  intro r
  induction r with
  | eps =>
    intro _ s k x h
    exact ⟨0, Nat.zero_le _, by simp, h⟩
  | lit cs =>
    intro hQ s k x h
    simp only [mRE] at h
    cases hl : litMatch cs s with
    | none => rw [hl] at h; exact absurd h (by simp)
    | some s1 =>
      rw [hl] at h
      have hseq := litMatch_some hl
      refine ⟨cs.length, ?_, ?_, ?_⟩
      · rw [hseq, List.length_append]; omega
      · intro c hc
        rw [hseq, List.take_left] at hc
        exact hQ c hc
      · rw [hseq, List.drop_left]
        exact h
  | cls p mn mx =>
    intro hQ s k x h
    simp only [mRE] at h
    obtain ⟨i, hmem, hki⟩ := firstSomeL_eq_some h
    have hb := mem_countdown hmem
    have hle : i ≤ runLen p s := le_trans hb.2 (clsHi_le_runLen p mx s)
    refine ⟨i, le_trans hle (runLen_le_length p s), ?_, hki⟩
    intro c hc
    exact hQ c (take_all_of_le_runLen hle c hc)
  | seq a b iha ihb =>
    intro hQ s k x h
    simp only [mRE] at h
    obtain ⟨n1, hn1, hq1, h1⟩ := iha hQ.1 s _ x h
    obtain ⟨n2, hn2, hq2, h2⟩ := ihb hQ.2 (s.drop n1) k x h1
    refine ⟨n1 + n2, ?_, ?_, ?_⟩
    · rw [List.length_drop] at hn2; omega
    · intro c hc
      rw [List.take_add] at hc
      rcases List.mem_append.mp hc with hc | hc
      · exact hq1 c hc
      · exact hq2 c hc
    · have hd : (s.drop n1).drop n2 = s.drop (n1 + n2) := List.drop_drop n2 n1 s
      rw [← hd]
      exact h2
  | alt a b iha ihb =>
    intro hQ s k x h
    simp only [mRE] at h
    cases ha : mRE a s k with
    | some y =>
      simp only [ha] at h
      rw [Option.some.inj h] at ha
      exact iha hQ.1 s k x ha
    | none =>
      simp only [ha] at h
      exact ihb hQ.2 s k x h

theorem tryMatch_decomp {Qp Qg : Char → Prop} {P : Pat} (hpre : REChars Qp P.pre)
    (hgrp : REChars Qg P.grp) {s g rest : List Char}
    (h : tryMatch P s = some (g, rest)) :
    ∃ u, s = u ++ g ++ rest ∧ (∀ c ∈ u, Qp c) ∧ (∀ c ∈ g, Qg c) := by
  unfold tryMatch at h
  obtain ⟨n1, hn1, hq1, h1⟩ := mRE_some_decomp P.pre hpre s _ _ h
  obtain ⟨n2, hn2, hq2, h2⟩ := mRE_some_decomp P.grp hgrp (s.drop n1) _ _ h1
  have hlen : (s.drop n1).length - ((s.drop n1).drop n2).length = n2 := by
    simp only [List.length_drop] at hn2 ⊢
    omega
  rw [hlen] at h2
  obtain ⟨hg, hrest⟩ := Prod.mk.inj (Option.some.inj h2)
  refine ⟨s.take n1, ?_, hq1, ?_⟩
  · rw [← hg, ← hrest, List.append_assoc, List.take_append_drop, List.take_append_drop]
  · intro c hc
    exact hq2 c (by rw [hg]; exact hc)

theorem tryMatch_split {P : Pat} {s g rest : List Char} (h : tryMatch P s = some (g, rest)) :
    ∃ u, s = u ++ g ++ rest := by
  obtain ⟨u, hu, _, _⟩ := tryMatch_decomp (REChars_true P.pre) (REChars_true P.grp) h
  exact ⟨u, hu⟩

theorem sufOf_refl (s : List Char) : SufOf s s := ⟨[], rfl⟩

theorem sufOf_cons {x t : List Char} (c : Char) (h : SufOf x t) : SufOf x (c :: t) := by
  obtain ⟨a, ha⟩ := h
  exact ⟨c :: a, by rw [List.cons_append, ha]⟩

theorem sufOf_trans {x y z : List Char} (h1 : SufOf x y) (h2 : SufOf y z) : SufOf x z := by
  obtain ⟨a, ha⟩ := h1
  obtain ⟨b, hb⟩ := h2
  exact ⟨b ++ a, by rw [List.append_assoc, ha, hb]⟩

theorem sufOf_of_le {x y l : List Char} (hx : SufOf x l) (hy : SufOf y l)
    (hle : x.length ≤ y.length) : SufOf x y := by
  obtain ⟨a, ha⟩ := hx
  obtain ⟨b, hb⟩ := hy
  have hxl : x = l.drop a.length := by rw [← ha, List.drop_left]
  have hyl : y = l.drop b.length := by rw [← hb, List.drop_left]
  have hal : a.length + x.length = l.length := by
    rw [← ha, List.length_append]
  have hbl : b.length + y.length = l.length := by
    rw [← hb, List.length_append]
  refine ⟨y.take (a.length - b.length), ?_⟩
  have hdr : y.drop (a.length - b.length) = x := by
    rw [hyl, List.drop_drop, hxl]
    congr 1
    omega
  rw [← hdr, List.take_append_drop]

/-- A pattern whose uncaptured part starts with a literal matches exactly
where the literal matches and the rest of the pattern matches after it. -/
theorem tryMatch_seq_lit (cs : List Char) (r gR : RE) (s : List Char) :
    tryMatch ⟨RE.seq (RE.lit cs) r, gR⟩ s =
      (match litMatch cs s with
       | some s1 => tryMatch ⟨r, gR⟩ s1
       | none => none) := by
  unfold tryMatch
  simp only [mRE]

theorem tryMatch_patDate_eq (s : List Char) :
    tryMatch patDate s =
      (match litMatch "date".data s with
       | some s1 => tryMatch ⟨RE.cls colWsB 1 none, dateGrp⟩ s1
       | none => none) :=
  tryMatch_seq_lit "date".data (RE.cls colWsB 1 none) dateGrp s

theorem tryMatch_receipt_eq (s : List Char) :
    tryMatch patReceiptDate s =
      (match litMatch "receipt ".data s with
       | some s1 => tryMatch patDate s1
       | none => none) :=
  tryMatch_seq_lit "receipt ".data datePre dateGrp s

theorem tryMatch_patDate_decomp {s g rest : List Char}
    (h : tryMatch patDate s = some (g, rest)) :
    ∃ w, s = "date".data ++ (w ++ g ++ rest) ∧ (∀ c ∈ w, colWsB c = true) ∧
      (∀ c ∈ g, (digitB c || dashSlashB c) = true) := by
  rw [tryMatch_patDate_eq] at h
  cases hl : litMatch "date".data s with
  | none => rw [hl] at h; exact absurd h (by simp)
  | some sA =>
    rw [hl] at h
    have hcw : REChars (fun c => colWsB c = true) (RE.cls colWsB 1 none) :=
      fun _ hc => hc
    have hdg : REChars (fun c => (digitB c || dashSlashB c) = true) dateGrp := by
      simp only [dateGrp, REChars]
      refine ⟨?_, ?_, ?_, ?_, ?_⟩ <;> intro c hc <;> simp [hc]
    obtain ⟨w, hw, hq1, hq2⟩ := tryMatch_decomp hcw hdg h
    exact ⟨w, by rw [litMatch_some hl, hw], hq1, hq2⟩

theorem mem_scanAux {P : Pat} :
    ∀ (fuel : Nat) {s g : List Char}, g ∈ scanAux P fuel s →
      ∃ s2 rest, SufOf s2 s ∧ tryMatch P s2 = some (g, rest) := by
  intro fuel
  induction fuel with
  | zero => intro s g h; simp [scanAux] at h
  | succ fuel ih =>
    intro s g h
    simp only [scanAux] at h
    cases hm : tryMatch P s with
    | some pr =>
      obtain ⟨g0, rest0⟩ := pr
      simp only [hm] at h
      by_cases hlt : rest0.length < s.length
      · rw [if_pos hlt] at h
        rcases List.mem_cons.mp h with rfl | h
        · exact ⟨s, rest0, sufOf_refl s, hm⟩
        · obtain ⟨s2, rest, hsuf, htm⟩ := ih h
          obtain ⟨u, hu⟩ := tryMatch_split hm
          exact ⟨s2, rest, sufOf_trans hsuf ⟨u ++ g0, hu.symm⟩, htm⟩
      · rw [if_neg hlt] at h
        cases s with
        | nil =>
          have hg := List.mem_singleton.mp h
          subst hg
          exact ⟨[], rest0, sufOf_refl [], hm⟩
        | cons c t =>
          rcases List.mem_cons.mp h with rfl | h
          · exact ⟨c :: t, rest0, sufOf_refl _, hm⟩
          · obtain ⟨s2, rest, hsuf, htm⟩ := ih h
            exact ⟨s2, rest, sufOf_cons c hsuf, htm⟩
    | none =>
      simp only [hm] at h
      cases s with
      | nil => simp at h
      | cons c t =>
        obtain ⟨s2, rest, hsuf, htm⟩ := ih h
        exact ⟨s2, rest, sufOf_cons c hsuf, htm⟩

theorem scanAux_patDate_covers :
    ∀ (fuel : Nat) (s s2 g rest : List Char), s.length < fuel → SufOf s2 s →
      tryMatch patDate s2 = some (g, rest) → g ∈ scanAux patDate fuel s := by
  intro fuel
  induction fuel with
  | zero =>
    intro s s2 g rest hf _ _
    exact absurd hf (Nat.not_lt_zero _)
  | succ fuel ih =>
    intro s s2 g rest hf hsuf hm
    by_cases heq : s2 = s
    · subst heq
      obtain ⟨w, hw, _, _⟩ := tryMatch_patDate_decomp hm
      have h4 : ("date".data).length = 4 := by decide
      have hlt : rest.length < s2.length := by
        rw [hw]
        simp only [List.length_append, h4]
        omega
      simp only [scanAux, hm]
      rw [if_pos hlt]
      exact List.mem_cons_self _ _
    · obtain ⟨a, ha⟩ := hsuf
      have hane : a ≠ [] := by
        intro h0
        subst h0
        exact heq (by rw [← ha, List.nil_append])
      cases hts : tryMatch patDate s with
      | none =>
        cases s with
        | nil =>
          exfalso
          have h2 := List.append_eq_nil.mp ha
          exact heq h2.2
        | cons c t =>
          simp only [scanAux, hts]
          cases a with
          | nil => exact absurd rfl hane
          | cons x xs =>
            rw [List.cons_append] at ha
            obtain ⟨hxc, hxs⟩ := List.cons.inj ha
            apply ih t s2 g rest
            · simp only [List.length_cons] at hf
              omega
            · exact ⟨xs, hxs⟩
            · exact hm
      | some pr =>
        obtain ⟨g0, rest0⟩ := pr
        obtain ⟨w0, hw0, hq0w, hq0g⟩ := tryMatch_patDate_decomp hts
        have h4 : ("date".data).length = 4 := by decide
        have hlt : rest0.length < s.length := by
          rw [hw0]
          simp only [List.length_append, h4]
          omega
        simp only [scanAux, hts]
        rw [if_pos hlt]
        by_cases hcmp : s2.length ≤ rest0.length
        · have hCs : ("date".data ++ (w0 ++ g0)) ++ rest0 = s := by
            rw [hw0]
            simp [List.append_assoc]
          have hsufr : SufOf rest0 s := ⟨"date".data ++ (w0 ++ g0), hCs⟩
          have hsuf2 : SufOf s2 rest0 := sufOf_of_le ⟨a, ha⟩ hsufr hcmp
          refine List.mem_cons_of_mem _ (ih rest0 s2 g rest ?_ hsuf2 hm)
          omega
        · exfalso
          push_neg at hcmp
          set consumed := "date".data ++ w0 ++ g0 with hcdef
          have hCs : consumed ++ rest0 = s := by
            rw [hw0, hcdef]
            simp [List.append_assoc]
          have hslen : a.length + s2.length = s.length := by
            rw [← ha, List.length_append]
          have hclen : consumed.length + rest0.length = s.length := by
            rw [← hCs]
            simp [List.length_append]
          have hap : 1 ≤ a.length := by
            cases a with
            | nil => exact absurd rfl hane
            | cons _ _ => simp
          have haclt : a.length < consumed.length := by omega
          have hs2eq : s2 = consumed.drop a.length ++ rest0 := by
            have h1 : s2 = s.drop a.length := by rw [← ha, List.drop_left]
            rw [h1, ← hCs, List.drop_append_eq_append_drop]
            have hz : a.length - consumed.length = 0 := by omega
            rw [hz]
            rfl
          obtain ⟨w', hw', _, _⟩ := tryMatch_patDate_decomp hm
          have hs2d : s2 = 'd' :: ("ate".data ++ (w' ++ g ++ rest)) := by
            rw [hw']
            rfl
          have hbne : consumed.drop a.length ≠ [] := by
            intro h0
            have h2 := congrArg List.length h0
            simp only [List.length_drop, List.length_nil] at h2
            omega
          obtain ⟨c, bs, hcbs⟩ : ∃ c bs, consumed.drop a.length = c :: bs := by
            cases hb : consumed.drop a.length with
            | nil => exact absurd hb hbne
            | cons c bs => exact ⟨c, bs, rfl⟩
          have hcd : c = 'd' := by
            rw [hcbs, List.cons_append] at hs2eq
            exact (List.cons.inj (hs2eq.symm.trans hs2d)).1
          have hcmem : c ∈ consumed.drop 1 := by
            have hsub : consumed.drop a.length ⊆ consumed.drop 1 := by
              intro y hy
              have hrw : consumed.drop a.length = (consumed.drop 1).drop (a.length - 1) := by
                rw [List.drop_drop]
                congr 1
                omega
              rw [hrw] at hy
              exact List.drop_subset _ _ hy
            exact hsub (by rw [hcbs]; exact List.mem_cons_self _ _)
          have hdrop1 : consumed.drop 1 = ("ate".data ++ w0) ++ g0 := by
            rw [hcdef]
            rfl
          rw [hcd, hdrop1] at hcmem
          rcases List.mem_append.mp hcmem with hmem | hmem
          · rcases List.mem_append.mp hmem with hmem2 | hmem2
            · exact absurd hmem2 (by decide)
            · exact absurd (hq0w 'd' hmem2) (by decide)
          · exact absurd (hq0g 'd' hmem) (by decide)

theorem scanAll_receipt_sub {s g : List Char} (h : g ∈ scanAll patReceiptDate s) :
    g ∈ scanAll patDate s := by
  obtain ⟨s2, rest, hsuf, htm⟩ := mem_scanAux (s.length + 1) h
  rw [tryMatch_receipt_eq] at htm
  cases hl : litMatch "receipt ".data s2 with
  | none =>
    rw [hl] at htm
    exact absurd htm (by simp)
  | some s3 =>
    rw [hl] at htm
    have hs3 : SufOf s3 s2 := ⟨"receipt ".data, (litMatch_some hl).symm⟩
    exact scanAux_patDate_covers (s.length + 1) s s3 g rest (Nat.lt_succ_self _)
      (sufOf_trans hs3 hsuf) htm

theorem firstParse_append_some {dp : List Char → Option PyDateTime}
    {xs : List (List Char)} (ys : List (List Char)) {d : PyDateTime}
    (h : firstParse dp xs = some d) : firstParse dp (xs ++ ys) = some d := by
  rw [firstParse_append, h]

theorem firstParse_append_none {dp : List Char → Option PyDateTime}
    {xs : List (List Char)} (ys : List (List Char))
    (h : firstParse dp xs = none) : firstParse dp (xs ++ ys) = firstParse dp ys := by
  rw [firstParse_append, h]

/-- C10: the `receipt date` pattern is redundant — every candidate it can
contribute is already contributed by the earlier `date` pattern (the
string `date` occurs inside `receipt date`, and a `date`-pattern match
never covers a later `d`, so the scan cannot skip it), hence for every
parser and every text the extraction result is unchanged when the
`receipt date` pattern is removed from the list. -/
theorem C10_receipt_pattern_redundant (dp : List Char → Option PyDateTime)
    (text : List Char) :
    extract_submission_date dp text = extract_submission_date_without_receipt dp text := by
  unfold extract_submission_date extract_submission_date_without_receipt
  rw [esdGo_eq, esdGo_eq]
  generalize text.map lowerChar = t
  simp only [date_patterns, date_patterns_without_receipt, patCands]
  cases h1 : firstParse dp (scanAll patDate t) with
  | some d => rw [firstParse_append_some _ h1, firstParse_append_some _ h1]
  | none =>
    rw [firstParse_append_none _ h1, firstParse_append_none _ h1]
    cases h2 : firstParse dp (scanAll patDated t) with
    | some d => rw [firstParse_append_some _ h2, firstParse_append_some _ h2]
    | none =>
      rw [firstParse_append_none _ h2, firstParse_append_none _ h2]
      have h3 : firstParse dp (scanAll patReceiptDate t) = none := by
        rw [firstParse_eq_none_iff]
        intro c hc
        exact (firstParse_eq_none_iff dp (scanAll patDate t)).mp h1 c (scanAll_receipt_sub hc)
      rw [firstParse_append_none _ h3]
